import Mathlib

/-!
Shallow embedding of the news-aggregation core of the Grow-with-AI server
(the final server variant, together with the earlier variant's link
validator, both under the repository's sources).  JavaScript strings are
modelled as Lean strings, Date values as their millisecond timestamps
(as Int), and network effects as explicit outcome parameters.  Fallible
code is modelled in the Except monad with the source's try/catch blocks
rendered as explicit catch combinators.  All definitions are executable.
-/

namespace GrowWithAI

/-- Article record produced by every source adapter (the object literal
pushed by the three fetchers in the server); publishedAt holds the
Date's millisecond timestamp. -/
structure Article where
  title : String
  summary : String
  source : String
  link : String
  publishedAt : Int
deriving Repr, DecidableEq

/-- Character-list test that pat is an initial segment of the second list. -/
def startsWithChars : List Char → List Char → Bool
  | [], _ => true
  | _ :: _, [] => false
  | p :: ps, c :: cs => p == c && startsWithChars ps cs

/-- Substring test on character lists. -/
def charsHasSub (pat : List Char) : List Char → Bool
  | [] => pat.isEmpty
  | c :: cs => startsWithChars pat (c :: cs) || charsHasSub pat cs

/-- JavaScript s.includes(pat). -/
def containsStr (s pat : String) : Bool := charsHasSub pat.data s.data

/-- ASCII lower-casing of one character (models toLowerCase on the ASCII
strings handled by the pipeline). -/
def asciiLower (c : Char) : Char :=
  if 'A' ≤ c ∧ c ≤ 'Z' then Char.ofNat (c.toNat + 32) else c

/-- JavaScript s.toLowerCase(). -/
def lowerStr (s : String) : String := String.mk (s.data.map asciiLower)

/-- JavaScript s.trim(). -/
def jsTrim (s : String) : String :=
  String.mk (((s.data.dropWhile Char.isWhitespace).reverse.dropWhile Char.isWhitespace).reverse)

/-- JavaScript s.slice(0, n). -/
def jsSlice (n : Nat) (s : String) : String := String.mk (s.data.take n)

/-- Replace every tag span between angle brackets with one space, as the
first regex substitution of the server's stripHtml does.  The Boolean flag
is true while scanning inside a tag. -/
def stripTagsChars : Bool → List Char → List Char
  | _, [] => []
  | true, c :: cs => if c = '>' then stripTagsChars false cs else stripTagsChars true cs
  | false, c :: cs => if c = '<' then ' ' :: stripTagsChars true cs else c :: stripTagsChars false cs

/-- Collapse each whitespace run to one space, as the second regex
substitution of stripHtml does.  The flag records whether the previous
character was whitespace. -/
def collapseWsChars : Bool → List Char → List Char
  | _, [] => []
  | prev, c :: cs =>
    if c.isWhitespace then
      if prev then collapseWsChars true cs else ' ' :: collapseWsChars true cs
    else c :: collapseWsChars false cs

/-- The server's stripHtml utility: strip tags, collapse whitespace, trim. -/
def stripHtml (s : String) : String :=
  jsTrim (String.mk (collapseWsChars false (stripTagsChars false s.data)))

/-- The server's isValidUrl: the URL must parse with an http or https
protocol; modelled as the scheme check on well-formed absolute URLs. -/
def isValidUrl (s : String) : Bool :=
  startsWithChars "http://".data s.data || startsWithChars "https://".data s.data

/-- Remove the first occurrence of the four characters of the www-dot
marker, as the single-replacement in extractDomain does. -/
def stripWww : List Char → List Char
  | [] => []
  | c :: cs => if startsWithChars "www.".data (c :: cs) then cs.drop 3 else c :: stripWww cs

/-- The server's extractDomain: hostname of the URL with a leading
www-dot occurrence removed, or the unknown-source default when the URL
does not parse.  The hostname of an http(s) URL is modelled as the
authority text following the scheme separator. -/
def extractDomain (url : String) : String :=
  if isValidUrl url then
    let rest := if startsWithChars "https://".data url.data then url.data.drop 8 else url.data.drop 7
    let host := rest.takeWhile (fun c => !(c == '/') && !(c == ':') && !(c == '?') && !(c == '#'))
    String.mk (stripWww host)
  else "Unknown Source"

/-- Normalized title dedup key of the aggregator: lower-cased, with every
character that is neither a word character nor whitespace removed, and
trimmed. -/
def normalizeTitle (t : String) : String :=
  jsTrim (String.mk ((lowerStr t).data.filter (fun c => c.isAlphanum || c == '_' || c.isWhitespace)))

/-- Case-insensitive link dedup key of the aggregator. -/
def linkKey (a : Article) : String := lowerStr a.link

/-- Normalized title dedup key of an article. -/
def titleKey (a : Article) : String := normalizeTitle a.title

/-- Insertion step of the recency sort: articles compared by the
newest-first comparator on publishedAt. -/
def insertByRecency (a : Article) : List Article → List Article
  | [] => [a]
  | b :: l => if b.publishedAt ≤ a.publishedAt then a :: b :: l else b :: insertByRecency a l

/-- Model of the JavaScript sort by publication time, newest first. -/
def sortDesc (l : List Article) : List Article := l.foldr insertByRecency []

/-- Deduplication loop of fetchNewsFromMultipleSources: one shared seen
set receives both the case-insensitive link key and the normalized title
key of every accepted article, and an incoming article is kept only when
neither of its keys is already in the set. -/
def dedupGo : List String → List Article → List Article
  | _, [] => []
  | seen, a :: rest =>
    if linkKey a ∈ seen ∨ titleKey a ∈ seen then dedupGo seen rest
    else a :: dedupGo (linkKey a :: titleKey a :: seen) rest

/-- The seen set left behind by the deduplication loop. -/
def seenAfter : List String → List Article → List String
  | seen, [] => seen
  | seen, a :: rest =>
    if linkKey a ∈ seen ∨ titleKey a ∈ seen then seenAfter seen rest
    else seenAfter (linkKey a :: titleKey a :: seen) rest

/-- Deduplication of a combined article list, starting from an empty seen
set, exactly as fetchNewsFromMultipleSources runs it. -/
def dedupMerge (l : List Article) : List Article := dedupGo [] l

/-- The cross-source deduplicating merge of the spec: the incoming batch
is appended to the existing list and the whole is run through the shared
seen-set loop. -/
def mergeArticles (existing incoming : List Article) : List Article :=
  dedupMerge (existing ++ incoming)

/-- Aggregation tail of fetchNewsFromMultipleSources: the three adapter
result lists are concatenated in source order, deduplicated, sorted by
recency and truncated to minArticles. -/
def fetchNewsFromMultipleSources (googleNews newsApiResults gdeltNews : List Article)
    (minArticles : Nat) : List Article :=
  (sortDesc (dedupMerge (googleNews ++ newsApiResults ++ gdeltNews))).take minArticles

/-- Caller-side clamp of the news route: a positive numeric minArticles is
capped at twenty, anything else defaults to five.  A request value that is
not a number is modelled as none. -/
def clampMinArticles (m : Option Int) : Int :=
  match m with
  | some v => if 0 < v then min v 20 else 5
  | none => 5

/-- True when the request's minArticles is not a positive number. -/
def minArticlesInvalid (m : Option Int) : Bool :=
  match m with
  | some v => decide (v ≤ 0)
  | none => true

/-- Topic validation of the news route: keep the topics whose trimmed text
is non-empty, trim them, and cap the list at ten. -/
def validateTopics (topics : List String) : List String :=
  ((topics.filter (fun t => 0 < (jsTrim t).length)).map jsTrim).take 10

/-- Responses of the news route that matter to the aggregation claims. -/
inductive ApiNewsResponse where
  | badRequest (message : String)
  | notFound (message : String)
  | ok (articles : List Article)
deriving Repr, DecidableEq

/-- The distinct no-articles-found message of the news route. -/
def noArticlesMessage : String :=
  "No recent articles found for the specified topics. Try different or more general topics."

/-- Model of the news route handler.  The three adapter result lists stand
for the network fetches performed with the validated topics. -/
def apiNewsModel (topics : List String) (minArticles : Option Int)
    (googleNews newsApiResults gdeltNews : List Article) : ApiNewsResponse :=
  if topics.isEmpty then ApiNewsResponse.badRequest "Topics array is required and cannot be empty"
  else
    let m := clampMinArticles minArticles
    let validTopics := validateTopics topics
    if validTopics.isEmpty then ApiNewsResponse.badRequest "At least one valid topic is required"
    else
      let finalArticles := fetchNewsFromMultipleSources googleNews newsApiResults gdeltNews m.toNat
      if finalArticles.isEmpty then ApiNewsResponse.notFound noArticlesMessage
      else ApiNewsResponse.ok finalArticles

/-- Outcome of one HTTP fetch: rejection of the promise (network error),
expiry of the abort signal (timeout), or a response carrying a status, a
content type and a body already parsed into the adapter's shape. -/
inductive HttpOutcome (α : Type) where
  | netError
  | timeout
  | response (status : Nat) (contentType : String) (body : α)

/-- The progressive time windows of the RSS fetcher, ending in the
unbounded sentinel. -/
def googleTimeWindows : List String := ["1h", "6h", "24h", ""]

/-- Millisecond duration of each bounded window of the progressive
sequence; the sentinel has none. -/
def windowDurationMs : String → Option Int
  | "1h" => some 3600000
  | "6h" => some 21600000
  | "24h" => some 86400000
  | _ => none

/-- Freshness check of the RSS fetcher: the age in hours must not exceed
the fixed freshnessHours parameter, or the window must be the unbounded
sentinel.  The source divides milliseconds by an hour's worth before the
comparison; with exact arithmetic that is the product comparison below. -/
def freshOk (timeWindow : String) (nowMs pubMs : Int) (freshnessHours : Int) : Bool :=
  decide (nowMs - pubMs ≤ freshnessHours * 3600000) || decide (timeWindow = "")

/-- Modelled from the spec: the spec's freshness contract, stated for
refutation against the code.  It demands acceptance exactly when the age
is at most the current bounded window's own duration. -/
def freshnessClaimProp : Prop :=
  ∀ tw ∈ googleTimeWindows, ∀ d, windowDurationMs tw = some d →
    ∀ nowMs pubMs : Int, (freshOk tw nowMs pubMs 6 = true ↔ nowMs - pubMs ≤ d)

/-- One RSS item after the tolerant regex extraction of the fetcher:
missing optional fields have already collapsed to the empty string, and a
missing or unparsable publication date to none (the source falls back to
the current time). -/
structure RssItem where
  title : String
  link : String
  source : String
  description : String
  pubDate : Option Int
deriving Repr, DecidableEq

/-- Per-item step of the RSS fetcher: derive the source and summary
defaults, validate the title and link, dedup by exact link against the
fetcher's seen set, apply the freshness check, and append the truncated
article. -/
def rssItemStep (topic tw : String) (nowMs fhHours : Int)
    (st : List Article × List String) (it : RssItem) : List Article × List String :=
  let acc := st.1
  let seen := st.2
  let source := if it.source = "" then extractDomain it.link else it.source
  let summary0 := jsSlice 300 (stripHtml it.description)
  let summary := if summary0 = "" then s!"Latest news about {topic}" else summary0
  let publishedAt := it.pubDate.getD nowMs
  if it.title ≠ "" ∧ it.link ≠ "" ∧ isValidUrl it.link = true ∧ it.link ∉ seen then
    if freshOk tw nowMs publishedAt fhHours then
      (acc ++ [{ title := jsSlice 200 it.title, summary := jsSlice 300 summary,
                 source := jsSlice 100 source, link := it.link, publishedAt := publishedAt }],
       it.link :: seen)
    else (acc, seen)
  else (acc, seen)

/-- Fallible body of one per-topic RSS fetch: the promise may reject or
time out; a response with a non-OK status yields no articles; an OK
response has its items folded through the per-item step. -/
def googleTopicFetchE (topic tw : String) (nowMs fhHours : Int) (seen : List String)
    (o : HttpOutcome (List RssItem)) : Except String (List Article × List String) :=
  match o with
  | HttpOutcome.netError => Except.error "fetch failed"
  | HttpOutcome.timeout => Except.error "timeout"
  | HttpOutcome.response status _ items =>
    if 200 ≤ status ∧ status < 300 then
      Except.ok (items.foldl (rssItemStep topic tw nowMs fhHours) ([], seen))
    else Except.ok ([], seen)

/-- The catch block wrapping each per-topic RSS fetch: a failure is logged
and contributes the empty list, leaving the seen set unchanged. -/
def catchEmpty (seen : List String) (e : Except String (List Article × List String)) :
    List Article × List String :=
  match e with
  | Except.ok r => r
  | Except.error _ => ([], seen)

/-- One per-topic RSS fetch with its catch block applied. -/
def googleTopicFetch (topic tw : String) (nowMs fhHours : Int) (seen : List String)
    (o : HttpOutcome (List RssItem)) : List Article × List String :=
  catchEmpty seen (googleTopicFetchE topic tw nowMs fhHours seen o)

/-- Per-topic fan-out of one time window.  The source runs the topic
fetches in parallel over one shared seen set; the shared mutation is
modelled as sequential threading of the set through the topics. -/
def googleWindowGo (oracle : String → String → HttpOutcome (List RssItem))
    (tw : String) (nowMs fhHours : Int) :
    List String → List Article × List String → List Article × List String
  | [], st => st
  | t :: ts, st =>
    googleWindowGo oracle tw nowMs fhHours ts
      (st.1 ++ (googleTopicFetch t tw nowMs fhHours st.2 (oracle tw t)).1,
       (googleTopicFetch t tw nowMs fhHours st.2 (oracle tw t)).2)

/-- Fan-out of one time window over all topics, collecting the flattened
window batch and the updated seen set. -/
def googleWindowFetch (oracle : String → String → HttpOutcome (List RssItem))
    (topics : List String) (tw : String) (nowMs fhHours : Int) (seen : List String) :
    List Article × List String :=
  googleWindowGo oracle tw nowMs fhHours topics ([], seen)

/-- Accumulator merge of the RSS fetcher: a window's article is appended
only when its exact link is absent from the accumulator and the
accumulator is still below twice minArticles. -/
def addUnique (minArticles : Nat) (results : List Article) (batch : List Article) :
    List Article :=
  batch.foldl
    (fun acc a =>
      if !(acc.any (fun r => r.link == a.link)) && decide (acc.length < minArticles * 2) then
        acc ++ [a]
      else acc)
    results

/-- Progressive-widening loop of the RSS fetcher over the remaining time
windows: stop early once the accumulator reaches minArticles, otherwise
fetch the window, sort its batch by recency, and merge it in. -/
def googleLoopGo (oracle : String → String → HttpOutcome (List RssItem))
    (topics : List String) (nowMs fhHours : Int) (minArticles : Nat) :
    List String → List Article × List String → List Article × List String
  | [], st => st
  | tw :: rest, st =>
    if minArticles ≤ st.1.length then st
    else
      let w := googleWindowFetch oracle topics tw nowMs fhHours st.2
      googleLoopGo oracle topics nowMs fhHours minArticles rest
        (addUnique minArticles st.1 (sortDesc w.1), w.2)

/-- The RSS adapter: run the widening loop over the window sequence, then
sort the accumulator by recency and truncate to minArticles. -/
def fetchGoogleNewsRssModel (oracle : String → String → HttpOutcome (List RssItem))
    (topics : List String) (nowMs : Int) (minArticles : Nat) (fhHours : Int) : List Article :=
  (sortDesc (googleLoopGo oracle topics nowMs fhHours minArticles googleTimeWindows ([], [])).1).take
    minArticles

/-- One raw article of the structured search API after field trimming:
missing fields have collapsed to the empty string, the publication
timestamp to none when absent. -/
structure NewsApiRawArticle where
  title : String
  url : String
  description : String
  sourceName : String
  publishedAt : Option Int
deriving Repr, DecidableEq

/-- Parsed body of the structured search API response: the body may fail
to parse as JSON (json() then throws), parse without a usable articles
array, or carry the article list. -/
inductive NewsApiJson where
  | notJson
  | fields (articles : Option (List NewsApiRawArticle))

/-- True when the title carries the provider's removed-content marker. -/
def hasRemovedTag (s : String) : Bool := containsStr s "[Removed]"

/-- Per-item step of the structured search API adapter: stop at
minArticles, validate title and link, discard removed items, and append
the truncated article with derived defaults. -/
def newsApiItemStep (topics : List String) (nowMs : Int) (minArticles : Nat)
    (acc : List Article) (a : NewsApiRawArticle) : List Article :=
  if minArticles ≤ acc.length then acc
  else
    let sourceName := if a.sourceName = "" then extractDomain a.url else a.sourceName
    let publishedAt := a.publishedAt.getD nowMs
    let t0 := topics.headD ""
    if a.title ≠ "" ∧ a.url ≠ "" ∧ isValidUrl a.url = true ∧ hasRemovedTag a.title = false then
      acc ++ [{ title := jsSlice 200 a.title,
                summary := if jsSlice 300 a.description = "" then s!"News about {t0}"
                           else jsSlice 300 a.description,
                source := jsSlice 100 sourceName, link := a.url, publishedAt := publishedAt }]
    else acc

/-- Fallible body of the structured search API adapter: the promise may
reject or time out, a non-OK status yields no articles, a non-JSON body
makes json() throw, a missing articles array yields no articles. -/
def newsApiBodyE (topics : List String) (nowMs : Int) (minArticles : Nat)
    (o : HttpOutcome NewsApiJson) : Except String (List Article) :=
  match o with
  | HttpOutcome.netError => Except.error "fetch failed"
  | HttpOutcome.timeout => Except.error "timeout"
  | HttpOutcome.response status _ j =>
    if 200 ≤ status ∧ status < 300 then
      match j with
      | NewsApiJson.notJson => Except.error "invalid json"
      | NewsApiJson.fields none => Except.ok []
      | NewsApiJson.fields (some arts) =>
        Except.ok (arts.foldl (newsApiItemStep topics nowMs minArticles) [])
    else Except.ok []

/-- The structured search API adapter: entirely skipped without a key,
otherwise its whole body runs under one catch that turns any failure into
the empty list. -/
def fetchNewsAPIModel (key : Option String) (topics : List String) (nowMs : Int)
    (minArticles : Nat) (o : HttpOutcome NewsApiJson) : List Article :=
  match key with
  | none => []
  | some _ =>
    match newsApiBodyE topics nowMs minArticles o with
    | Except.ok l => l
    | Except.error _ => []

/-- One raw article of the global-index API; the compact timestamp has
already been parsed to milliseconds, none when absent or invalid (the
source falls back to the current time). -/
structure GdeltRawArticle where
  title : String
  url : String
  domain : String
  seendtMs : Option Int
deriving Repr, DecidableEq

/-- Parsed body of a global-index API response. -/
inductive GdeltJson where
  | notJson
  | fields (articles : Option (List GdeltRawArticle))

/-- True when the content type announces JSON. -/
def hasJsonContentType (ct : String) : Bool := containsStr ct "application/json"

/-- Per-item step of the global-index adapter: stop at minArticles,
validate title and link, dedup by exact link or exact title within the
adapter's own results, and append the truncated article. -/
def gdeltItemStep (topic : String) (nowMs : Int) (minArticles : Nat)
    (acc : List Article) (a : GdeltRawArticle) : List Article :=
  if minArticles ≤ acc.length then acc
  else if a.title = "" ∨ a.url = "" ∨ isValidUrl a.url = false then acc
  else
    let publishedAt := a.seendtMs.getD nowMs
    if acc.any (fun r => r.link == a.url || r.title == a.title) then acc
    else
      let dom := if a.domain = "" then "international sources" else a.domain
      acc ++ [{ title := jsSlice 200 a.title,
                summary := jsSlice 300 s!"Breaking news about {topic} from {dom}.",
                source := if a.domain = "" then "GDELT" else a.domain,
                link := a.url, publishedAt := publishedAt }]

/-- Fallible body of one per-topic global-index fetch: the promise may
reject or time out; a non-OK status or a content type that does not
announce JSON leaves the accumulated results untouched; a JSON content
type with an unparsable body makes json() throw. -/
def gdeltTopicFetchE (topic : String) (nowMs : Int) (minArticles : Nat)
    (results : List Article) (o : HttpOutcome GdeltJson) : Except String (List Article) :=
  match o with
  | HttpOutcome.netError => Except.error "fetch failed"
  | HttpOutcome.timeout => Except.error "timeout"
  | HttpOutcome.response status ct j =>
    if 200 ≤ status ∧ status < 300 then
      if hasJsonContentType ct then
        match j with
        | GdeltJson.notJson => Except.error "invalid json"
        | GdeltJson.fields none => Except.ok results
        | GdeltJson.fields (some arts) =>
          Except.ok (arts.foldl (gdeltItemStep topic nowMs minArticles) results)
      else Except.ok results
    else Except.ok results

/-- One per-topic global-index fetch with its catch applied: a failure is
logged and the results accumulated so far are kept. -/
def gdeltTopicFetch (topic : String) (nowMs : Int) (minArticles : Nat)
    (results : List Article) (o : HttpOutcome GdeltJson) : List Article :=
  match gdeltTopicFetchE topic nowMs minArticles results o with
  | Except.ok l => l
  | Except.error _ => results

/-- The global-index adapter: fold the per-topic fetches with the early
break at minArticles, then sort the results by recency. -/
def fetchGdeltNewsModel (oracle : String → HttpOutcome GdeltJson) (topics : List String)
    (nowMs : Int) (minArticles : Nat) : List Article :=
  sortDesc
    (topics.foldl
      (fun results t =>
        if minArticles ≤ results.length then results
        else gdeltTopicFetch t nowMs minArticles results (oracle t))
      [])

/-- Failure modes of one RSS fetch: rejection, timeout, a non-OK status,
or a parse that extracts no items from the body. -/
def googleFetchFailed : HttpOutcome (List RssItem) → Bool
  | HttpOutcome.netError => true
  | HttpOutcome.timeout => true
  | HttpOutcome.response s _ items => decide (s < 200 ∨ 300 ≤ s) || items.isEmpty

/-- Failure modes of the structured search API fetch: rejection, timeout,
a non-OK status, a non-JSON body, or a missing articles array. -/
def newsApiFetchFailed : HttpOutcome NewsApiJson → Bool
  | HttpOutcome.netError => true
  | HttpOutcome.timeout => true
  | HttpOutcome.response s _ j =>
    decide (s < 200 ∨ 300 ≤ s) ||
      (match j with
       | NewsApiJson.notJson => true
       | NewsApiJson.fields none => true
       | NewsApiJson.fields (some _) => false)

/-- Failure modes of one global-index fetch: rejection, timeout, a non-OK
status, a content type that does not announce JSON, an unparsable JSON
body, or a missing articles array. -/
def gdeltFetchFailed : HttpOutcome GdeltJson → Bool
  | HttpOutcome.netError => true
  | HttpOutcome.timeout => true
  | HttpOutcome.response s ct j =>
    decide (s < 200 ∨ 300 ≤ s) || !hasJsonContentType ct ||
      (match j with
       | GdeltJson.notJson => true
       | GdeltJson.fields none => true
       | GdeltJson.fields (some _) => false)

/-- Outcome of one liveness probe of the link validator: the fetch may
throw (network error or timeout) or deliver a status code. -/
inductive ProbeResult where
  | throws
  | status (code : Nat)
deriving Repr, DecidableEq

/-- The earlier server variant's validateLink: a HEAD probe accepting any
2xx or 3xx status; on 405 or 403 a byte-range-limited GET retry decides;
any thrown failure is caught and the link optimistically accepted. -/
def validateLink (head getRetry : ProbeResult) : Bool :=
  match head with
  | ProbeResult.throws => true
  | ProbeResult.status s =>
    if (200 ≤ s ∧ s < 300) ∨ (300 ≤ s ∧ s < 400) then true
    else if s = 405 ∨ s = 403 then
      match getRetry with
      | ProbeResult.throws => true
      | ProbeResult.status g => decide (200 ≤ g ∧ g < 300)
    else false

/-- Advisory validation pass of the earlier RSS fetcher: probe the top
three links, log the failures, and return the final results unchanged. -/
def validateTopLinks (probe : String → Bool) (finalResults : List Article) : List Article :=
  let _failures := (finalResults.take 3).filter (fun a => probe a.link = false)
  finalResults

/-- Disjointness of both dedup keys between two articles. -/
def keysDisjoint (x y : Article) : Prop :=
  linkKey x ≠ linkKey y ∧ linkKey x ≠ titleKey y ∧
    titleKey x ≠ linkKey y ∧ titleKey x ≠ titleKey y

/-- Sample article with the newer publication time. -/
def exNew : Article :=
  { title := "newer", summary := "s", source := "src", link := "http://a.com/1",
    publishedAt := 100 }

/-- Sample article with the older publication time. -/
def exOld : Article :=
  { title := "older", summary := "s", source := "src", link := "http://b.com/2",
    publishedAt := 50 }

/-- Sample article whose normalized title collides with the next sample's
lowercased link. -/
def exArtA : Article :=
  { title := "x y", summary := "s", source := "src", link := "L1", publishedAt := 10 }

/-- Sample article whose lowercased link equals the previous sample's
normalized title while neither same-kind key collides. -/
def exArtB : Article :=
  { title := "other", summary := "s", source := "src", link := "X Y", publishedAt := 5 }

/-- Membership in the seen set is preserved by running the dedup loop. -/
theorem seen_sub_seenAfter : ∀ (l : List Article) (seen : List String) (k : String),
    k ∈ seen → k ∈ seenAfter seen l := by
  intro l
  induction l with
  | nil => intro seen k h; simpa [seenAfter] using h
  | cons a rest ih =>
    intro seen k h
    by_cases hc : linkKey a ∈ seen ∨ titleKey a ∈ seen
    · simpa [seenAfter, hc] using ih seen k h
    · simp only [seenAfter, if_neg hc]
      exact ih _ k (by simp [h])

/-- Every processed article leaves at least one of its keys in the final
seen set, whether it was accepted or rejected. -/
theorem key_mem_seenAfter : ∀ (l : List Article) (seen : List String) (a : Article),
    a ∈ l → linkKey a ∈ seenAfter seen l ∨ titleKey a ∈ seenAfter seen l := by
  intro l
  induction l with
  | nil => intro seen a h; simp at h
  | cons b rest ih =>
    intro seen a h
    rcases List.mem_cons.mp h with rfl | hmem
    · by_cases hc : linkKey a ∈ seen ∨ titleKey a ∈ seen
      · rcases hc with h1 | h1
        · left; simpa [seenAfter, h1] using seen_sub_seenAfter rest seen _ h1
        · right; simpa [seenAfter, h1] using seen_sub_seenAfter rest seen _ h1
      · simp only [seenAfter, if_neg hc]
        left; exact seen_sub_seenAfter rest _ _ (by simp)
    · by_cases hc : linkKey b ∈ seen ∨ titleKey b ∈ seen
      · simp only [seenAfter, if_pos hc]; exact ih seen a hmem
      · simp only [seenAfter, if_neg hc]; exact ih _ a hmem

/-- The dedup loop distributes over concatenation, threading the seen set. -/
theorem dedupGo_append : ∀ (X Y : List Article) (seen : List String),
    dedupGo seen (X ++ Y) = dedupGo seen X ++ dedupGo (seenAfter seen X) Y := by
  intro X
  induction X with
  | nil => intro Y seen; simp [dedupGo, seenAfter]
  | cons a rest ih =>
    intro Y seen
    by_cases hc : linkKey a ∈ seen ∨ titleKey a ∈ seen
    · simpa [dedupGo, seenAfter, hc] using ih Y seen
    · simp only [List.cons_append, dedupGo, seenAfter, if_neg hc, List.append_eq]
      rw [ih]

/-- Re-running the dedup loop on its own output with the same initial seen
set changes nothing. -/
theorem dedupGo_idem : ∀ (l : List Article) (seen : List String),
    dedupGo seen (dedupGo seen l) = dedupGo seen l := by
  intro l
  induction l with
  | nil => intro seen; simp [dedupGo]
  | cons a rest ih =>
    intro seen
    by_cases hc : linkKey a ∈ seen ∨ titleKey a ∈ seen
    · simp only [dedupGo, if_pos hc]; exact ih seen
    · simp only [dedupGo, if_neg hc]
      exact congrArg (a :: ·) (ih _)

/-- Deduplicating first does not change the seen set the loop ends with. -/
theorem seenAfter_dedupGo : ∀ (l : List Article) (seen : List String),
    seenAfter seen (dedupGo seen l) = seenAfter seen l := by
  intro l
  induction l with
  | nil => intro seen; simp [dedupGo, seenAfter]
  | cons a rest ih =>
    intro seen
    by_cases hc : linkKey a ∈ seen ∨ titleKey a ∈ seen
    · simp only [dedupGo, seenAfter, if_pos hc]; exact ih seen
    · simp only [dedupGo, seenAfter, if_neg hc]
      exact ih _

/-- A batch all of whose articles already collide with the seen set is
rejected wholesale. -/
theorem dedupGo_nil_of_hit : ∀ (l : List Article) (S : List String),
    (∀ a ∈ l, linkKey a ∈ S ∨ titleKey a ∈ S) → dedupGo S l = [] := by
  intro l
  induction l with
  | nil => intro S _; rfl
  | cons a rest ih =>
    intro S h
    have hc := h a (List.mem_cons_self a rest)
    simp only [dedupGo, if_pos hc]
    exact ih S (fun b hb => h b (List.mem_cons_of_mem a hb))

/-- Claim C7: the cross-source deduplicating merge is idempotent — merging
the same incoming batch a second time into the result of a merge produces
exactly the result of the first merge. -/
theorem merge_idempotent (A B : List Article) :
    mergeArticles (mergeArticles A B) B = mergeArticles A B := by
  unfold mergeArticles dedupMerge
  rw [dedupGo_append, dedupGo_idem, seenAfter_dedupGo,
    dedupGo_nil_of_hit B (seenAfter [] (A ++ B))
      (fun b hb => key_mem_seenAfter (A ++ B) [] b (List.mem_append_right A hb)),
    List.append_nil]

/-- Every article kept by the dedup loop had neither key in the initial
seen set. -/
theorem dedupGo_not_seen : ∀ (l : List Article) (seen : List String) (a : Article),
    a ∈ dedupGo seen l → linkKey a ∉ seen ∧ titleKey a ∉ seen := by
  intro l
  induction l with
  | nil => intro seen a h; simp [dedupGo] at h
  | cons b rest ih =>
    intro seen a h
    by_cases hc : linkKey b ∈ seen ∨ titleKey b ∈ seen
    · simp only [dedupGo, if_pos hc] at h
      exact ih seen a h
    · simp only [dedupGo, if_neg hc] at h
      rcases List.mem_cons.mp h with rfl | hmem
      · push_neg at hc; exact hc
      · have h2 := ih _ a hmem
        refine ⟨fun hs => h2.1 (by simp [hs]), fun hs => h2.2 (by simp [hs])⟩

/-- The dedup loop's output has pairwise disjoint key pairs: accepted
articles differ on both keys and even across key kinds. -/
theorem dedupGo_pairwise : ∀ (l : List Article) (seen : List String),
    (dedupGo seen l).Pairwise keysDisjoint := by
  intro l
  induction l with
  | nil => intro seen; simp [dedupGo]
  | cons a rest ih =>
    intro seen
    by_cases hc : linkKey a ∈ seen ∨ titleKey a ∈ seen
    · simp only [dedupGo, if_pos hc]; exact ih seen
    · simp only [dedupGo, if_neg hc]
      refine List.Pairwise.cons ?_ (ih _)
      intro y hy
      have hy2 := dedupGo_not_seen rest _ y hy
      have h1 : linkKey y ≠ linkKey a := fun h => hy2.1 (by simp [h])
      have h2 : linkKey y ≠ titleKey a := fun h => hy2.1 (by simp [h])
      have h3 : titleKey y ≠ linkKey a := fun h => hy2.2 (by simp [h])
      have h4 : titleKey y ≠ titleKey a := fun h => hy2.2 (by simp [h])
      exact ⟨Ne.symm h1, Ne.symm h3, Ne.symm h2, Ne.symm h4⟩

/-- Inserting into the recency order yields a permutation of consing. -/
theorem insertByRecency_perm (a : Article) : ∀ l : List Article,
    (insertByRecency a l).Perm (a :: l) := by
  intro l
  induction l with
  | nil => exact List.Perm.refl _
  | cons b l ih =>
    by_cases h : b.publishedAt ≤ a.publishedAt
    · simp [insertByRecency, h]
    · simp only [insertByRecency, if_neg h]
      exact (List.Perm.cons b ih).trans (List.Perm.swap a b l)

/-- The recency sort permutes its input. -/
theorem sortDesc_perm : ∀ l : List Article, (sortDesc l).Perm l := by
  intro l
  induction l with
  | nil => exact List.Perm.refl _
  | cons a l ih =>
    exact (insertByRecency_perm a (sortDesc l)).trans (List.Perm.cons a ih)

/-- Inserting into a newest-first sorted list keeps it sorted. -/
theorem insertByRecency_sorted (a : Article) : ∀ l : List Article,
    l.Pairwise (fun x y => y.publishedAt ≤ x.publishedAt) →
    (insertByRecency a l).Pairwise (fun x y => y.publishedAt ≤ x.publishedAt) := by
  intro l
  induction l with
  | nil => intro _; simp [insertByRecency]
  | cons b l ih =>
    intro hp
    rcases List.pairwise_cons.mp hp with ⟨hb, hl⟩
    by_cases h : b.publishedAt ≤ a.publishedAt
    · simp only [insertByRecency, if_pos h]
      refine List.Pairwise.cons ?_ hp
      intro y hy
      rcases List.mem_cons.mp hy with rfl | hmem
      · exact h
      · exact le_trans (hb y hmem) h
    · simp only [insertByRecency, if_neg h]
      refine List.Pairwise.cons ?_ (ih hl)
      intro y hy
      rcases List.mem_cons.mp ((insertByRecency_perm a l).mem_iff.mp hy) with rfl | hmem
      · omega
      · exact hb y hmem

/-- The recency sort sorts by publication time, newest first. -/
theorem sortDesc_sorted : ∀ l : List Article,
    (sortDesc l).Pairwise (fun x y => y.publishedAt ≤ x.publishedAt) := by
  intro l
  induction l with
  | nil => simp [sortDesc]
  | cons a l ih => exact insertByRecency_sorted a (sortDesc l) ih

/-- Claim C1: in every result list of the aggregation no two elements
share a case-insensitive link and no two share a normalized title. -/
theorem news_results_link_title_unique (g n d : List Article) (k : Nat) :
    (fetchNewsFromMultipleSources g n d k).Pairwise
      (fun x y => linkKey x ≠ linkKey y ∧ titleKey x ≠ titleKey y) := by
  have hsym : Symmetric (fun x y : Article => linkKey x ≠ linkKey y ∧ titleKey x ≠ titleKey y) :=
    fun x y h => ⟨Ne.symm h.1, Ne.symm h.2⟩
  have hp : (dedupMerge (g ++ n ++ d)).Pairwise
      (fun x y => linkKey x ≠ linkKey y ∧ titleKey x ≠ titleKey y) :=
    (dedupGo_pairwise _ []).imp (fun h => ⟨h.1, h.2.2.2⟩)
  exact List.Pairwise.sublist (List.take_sublist _ _)
    (((sortDesc_perm _).pairwise_iff @hsym).mpr hp)

/-- Claim C3: every result list of the aggregation is sorted by
publication time in descending order — each element's publishedAt is at
least its successor's. -/
theorem news_results_sorted_desc (g n d : List Article) (k i : Nat)
    (h : i + 1 < (fetchNewsFromMultipleSources g n d k).length) :
    ((fetchNewsFromMultipleSources g n d k).get ⟨i + 1, h⟩).publishedAt ≤
      ((fetchNewsFromMultipleSources g n d k).get ⟨i, Nat.lt_of_succ_lt h⟩).publishedAt := by
  have hs : (fetchNewsFromMultipleSources g n d k).Pairwise
      (fun x y => y.publishedAt ≤ x.publishedAt) :=
    List.Pairwise.sublist (List.take_sublist _ _) (sortDesc_sorted _)
  exact List.pairwise_iff_get.mp hs ⟨i, Nat.lt_of_succ_lt h⟩ ⟨i + 1, h⟩
    (Fin.mk_lt_mk.mpr (Nat.lt_succ_self i))

/-- Witness for claim C3 at a concrete two-article aggregation. -/
theorem news_results_sorted_desc_witness :
    ((fetchNewsFromMultipleSources [exNew] [exOld] [] 2).get ⟨1, by decide⟩).publishedAt ≤
      ((fetchNewsFromMultipleSources [exNew] [exOld] [] 2).get ⟨0, by decide⟩).publishedAt :=
  news_results_sorted_desc [exNew] [exOld] [] 2 0 (by decide)

/-- Claim C2: the aggregation returns at most minArticles articles, and
the route's clamp keeps the count positive, at most twenty, defaulting to
five whenever the request value is not a positive number. -/
theorem news_results_cardinality (g n d : List Article) (k : Nat) (m : Option Int) :
    (fetchNewsFromMultipleSources g n d k).length ≤ k ∧
      clampMinArticles m ≤ 20 ∧ 0 < clampMinArticles m ∧
      (minArticlesInvalid m = true → clampMinArticles m = 5) := by
  refine ⟨List.length_take_le k _, ?_, ?_, ?_⟩
  · cases m with
    | none => norm_num [clampMinArticles]
    | some v =>
      simp only [clampMinArticles]
      split
      · exact min_le_right v 20
      · norm_num
  · cases m with
    | none => norm_num [clampMinArticles]
    | some v =>
      simp only [clampMinArticles]
      split
      · rename_i hv
        exact lt_min hv (by norm_num)
      · norm_num
  · cases m with
    | none => intro _; rfl
    | some v =>
      intro hinv
      simp only [minArticlesInvalid, decide_eq_true_eq] at hinv
      simp [clampMinArticles, not_lt.mpr hinv, (by omega : ¬ 0 < v)]

/-- Witness for claim C2 at a concrete aggregation and an invalid
minArticles request value. -/
theorem news_results_cardinality_witness :
    (fetchNewsFromMultipleSources [exNew] [exOld] [] 1).length ≤ 1 ∧
      clampMinArticles (some 0) = 5 :=
  ⟨(news_results_cardinality [exNew] [exOld] [] 1 (some 0)).1,
    (news_results_cardinality [exNew] [exOld] [] 1 (some 0)).2.2.2 rfl⟩

/-- Claim C4, counterexample: the spec's per-window freshness contract is
false of the code.  In the bounded one-hour window, with the fetcher's
fixed six-hour threshold, an article aged two hours is accepted although
it is strictly older than the window's duration. -/
theorem freshness_window_claim_refuted : ¬ freshnessClaimProp := by
  intro h
  have hmem : "1h" ∈ googleTimeWindows := by simp [googleTimeWindows]
  have h2 := (h "1h" hmem 3600000 rfl 7200000 0).mp (by decide)
  exact absurd h2 (by decide)

/-- Claim C4, amended: the freshness check accepts an article exactly when
its age is at most the fixed freshnessHours threshold passed to the
fetcher (so the boundary age is accepted and anything strictly older is
rejected), or the window is the unbounded sentinel, under which every
article is accepted; the bounded windows' own durations play no role. -/
theorem freshness_fixed_threshold (tw : String) (nowMs pubMs fhHours : Int) :
    freshOk tw nowMs pubMs fhHours = true ↔
      (nowMs - pubMs ≤ fhHours * 3600000 ∨ tw = "") := by
  simp [freshOk]

/-- The accumulator merge of the RSS fetcher never pushes the accumulator
beyond twice minArticles. -/
theorem addUnique_length_le (m : Nat) : ∀ (batch results : List Article),
    results.length ≤ m * 2 → (addUnique m results batch).length ≤ m * 2 := by
  intro batch
  induction batch with
  | nil => intro results h; simpa [addUnique] using h
  | cons a batch ih =>
    intro results h
    simp only [addUnique, List.foldl_cons] at ih ⊢
    by_cases hc : (!(results.any fun r => r.link == a.link) &&
        decide (results.length < m * 2)) = true
    · have hlt : results.length < m * 2 := by
        have hc2 := hc
        simp only [Bool.and_eq_true, decide_eq_true_eq] at hc2
        exact hc2.2
      rw [if_pos hc]
      refine ih _ ?_
      simp only [List.length_append, List.length_cons, List.length_nil]
      omega
    · rw [if_neg hc]
      exact ih _ h

/-- The widening loop preserves the twice-minArticles accumulator bound. -/
theorem googleLoopGo_length_le (oracle : String → String → HttpOutcome (List RssItem))
    (topics : List String) (nowMs fhHours : Int) (m : Nat) :
    ∀ (ws : List String) (st : List Article × List String),
      st.1.length ≤ m * 2 →
      (googleLoopGo oracle topics nowMs fhHours m ws st).1.length ≤ m * 2 := by
  intro ws
  induction ws with
  | nil => intro st h; exact h
  | cons tw ws ih =>
    intro st h
    simp only [googleLoopGo]
    split
    · exact h
    · exact ih _ (addUnique_length_le m _ _ h)

/-- Claim C10: during the RSS fetcher's widening iteration the running
accumulator never grows beyond twice minArticles — the per-article guard
preserves the bound at every merge, so every reachable loop state obeys
it. -/
theorem rss_accumulator_bound (m : Nat) (results batch : List Article)
    (oracle : String → String → HttpOutcome (List RssItem)) (topics : List String)
    (nowMs fhHours : Int) (ws : List String) (st : List Article × List String) :
    (results.length ≤ m * 2 → (addUnique m results batch).length ≤ m * 2) ∧
      (st.1.length ≤ m * 2 →
        (googleLoopGo oracle topics nowMs fhHours m ws st).1.length ≤ m * 2) :=
  ⟨addUnique_length_le m batch results,
    googleLoopGo_length_le oracle topics nowMs fhHours m ws st⟩

/-- Witness for claim C10 at a concrete loop state. -/
theorem rss_accumulator_bound_witness :
    (addUnique 2 [exNew] [exOld]).length ≤ 4 ∧
      (googleLoopGo (fun _ _ => HttpOutcome.netError) ["ai"] 0 6 2 ["1h"]
        ([exNew], [])).1.length ≤ 4 := by
  have h := rss_accumulator_bound 2 [exNew] [exOld] (fun _ _ => HttpOutcome.netError)
    ["ai"] 0 6 ["1h"] ([exNew], [])
  exact ⟨h.1 (by decide), h.2 (by decide)⟩

/-- A per-topic oracle that yields no articles leaves a window's batch
empty. -/
theorem googleWindowGo_fst (oracle : String → String → HttpOutcome (List RssItem))
    (tw : String) (nowMs fhHours : Int)
    (hempty : ∀ t seen, (googleTopicFetch t tw nowMs fhHours seen (oracle tw t)).1 = []) :
    ∀ (ts : List String) (st : List Article × List String),
      (googleWindowGo oracle tw nowMs fhHours ts st).1 = st.1 := by
  intro ts
  induction ts with
  | nil => intro st; rfl
  | cons t ts ih =>
    intro st
    simp only [googleWindowGo]
    rw [ih, hempty, List.append_nil]

/-- With adapters that always yield zero articles the widening loop runs
to the end of the window list and ends with an empty accumulator. -/
theorem googleLoop_empty (oracle : String → String → HttpOutcome (List RssItem))
    (topics : List String) (nowMs fhHours : Int) (m : Nat)
    (hempty : ∀ tw t seen, (googleTopicFetch t tw nowMs fhHours seen (oracle tw t)).1 = []) :
    ∀ (ws : List String) (st : List Article × List String),
      st.1 = [] → (googleLoopGo oracle topics nowMs fhHours m ws st).1 = [] := by
  intro ws
  induction ws with
  | nil => intro st h; exact h
  | cons tw ws ih =>
    intro st h
    simp only [googleLoopGo]
    split
    · exact h
    · refine ih _ ?_
      have hw : (googleWindowFetch oracle topics tw nowMs fhHours st.2).1 = [] :=
        googleWindowGo_fst oracle tw nowMs fhHours (hempty tw) topics ([], st.2)
      simp [h, hw, addUnique, sortDesc]

/-- Claim C5: with adapters that always return zero usable articles the
widening loop terminates with an empty list, the aggregation is empty,
and the news route answers with the distinct no-articles-found error
rather than an empty success. -/
theorem starved_aggregation_not_found
    (oracle : String → String → HttpOutcome (List RssItem)) (topics reqTopics : List String)
    (nowMs fhHours : Int) (minA : Nat) (m : Option Int)
    (hempty : ∀ tw t seen, (googleTopicFetch t tw nowMs fhHours seen (oracle tw t)).1 = [])
    (hvalid : (validateTopics reqTopics).isEmpty = false)
    (hne : reqTopics.isEmpty = false) :
    fetchGoogleNewsRssModel oracle topics nowMs minA fhHours = [] ∧
      fetchNewsFromMultipleSources [] [] [] minA = [] ∧
      apiNewsModel reqTopics m [] [] [] = ApiNewsResponse.notFound noArticlesMessage := by
  have hagg : ∀ k : Nat, fetchNewsFromMultipleSources [] [] [] k = [] := by
    intro k
    simp [fetchNewsFromMultipleSources, dedupMerge, dedupGo, sortDesc]
  refine ⟨?_, hagg minA, ?_⟩
  · unfold fetchGoogleNewsRssModel
    rw [googleLoop_empty oracle topics nowMs fhHours minA hempty googleTimeWindows ([], []) rfl]
    simp [sortDesc]
  · simp [apiNewsModel, hne, hvalid, hagg]

/-- Witness for claim C5 with the always-rejecting oracle. -/
theorem starved_aggregation_not_found_witness :
    apiNewsModel ["ai"] none [] [] [] = ApiNewsResponse.notFound noArticlesMessage ∧
      fetchGoogleNewsRssModel (fun _ _ => HttpOutcome.netError) ["ai"] 0 5 6 = [] := by
  have h := starved_aggregation_not_found (fun _ _ => HttpOutcome.netError) ["ai"] ["ai"]
    0 6 5 none (fun _ _ _ => rfl) (by decide) (by decide)
  exact ⟨h.2.2, h.1⟩

/-- Claim C6: each adapter recovers from every failure mode with an empty
contribution instead of an exception — a rejected or timed-out RSS fetch,
a non-OK status or an item-less body leaves a topic's batch empty; the
structured search API adapter returns the empty list without a key and
under any of its failure modes; a failed per-topic global-index fetch
keeps the previously accumulated results. -/
theorem adapters_recover_failures (topic tw : String) (nowMs fhHours : Int)
    (seen : List String) (key : Option String) (topics : List String) (minA : Nat)
    (results : List Article) (o1 : HttpOutcome (List RssItem))
    (o2 : HttpOutcome NewsApiJson) (o3 : HttpOutcome GdeltJson) :
    (googleFetchFailed o1 = true →
      googleTopicFetch topic tw nowMs fhHours seen o1 = ([], seen)) ∧
      fetchNewsAPIModel none topics nowMs minA o2 = [] ∧
      (newsApiFetchFailed o2 = true → fetchNewsAPIModel key topics nowMs minA o2 = []) ∧
      (gdeltFetchFailed o3 = true → gdeltTopicFetch topic nowMs minA results o3 = results) := by
  refine ⟨?_, rfl, ?_, ?_⟩
  · cases o1 with
    | netError => intro _; rfl
    | timeout => intro _; rfl
    | response s ct items =>
      intro hf
      simp only [googleFetchFailed, Bool.or_eq_true, decide_eq_true_eq,
        List.isEmpty_iff] at hf
      rcases hf with hs | hi
      · have hnot : ¬(200 ≤ s ∧ s < 300) := by omega
        simp only [googleTopicFetch, googleTopicFetchE, if_neg hnot, catchEmpty]
      · subst hi
        by_cases hok : 200 ≤ s ∧ s < 300 <;>
          simp [googleTopicFetch, googleTopicFetchE, catchEmpty, hok]
  · cases key with
    | none => intro _; rfl
    | some kv =>
      cases o2 with
      | netError => intro _; rfl
      | timeout => intro _; rfl
      | response s ct j =>
        intro hf
        simp only [newsApiFetchFailed, Bool.or_eq_true, decide_eq_true_eq] at hf
        by_cases hok : 200 ≤ s ∧ s < 300
        · rcases hf with hs | hj
          · omega
          · cases j with
            | notJson => simp [fetchNewsAPIModel, newsApiBodyE, hok]
            | fields arts =>
              cases arts with
              | none => simp [fetchNewsAPIModel, newsApiBodyE, hok]
              | some l => simp at hj
        · cases j <;> simp [fetchNewsAPIModel, newsApiBodyE, hok]
  · cases o3 with
    | netError => intro _; rfl
    | timeout => intro _; rfl
    | response s ct j =>
      intro hf
      simp only [gdeltFetchFailed, Bool.or_eq_true, Bool.not_eq_true,
        decide_eq_true_eq] at hf
      by_cases hok : 200 ≤ s ∧ s < 300
      · by_cases hct : hasJsonContentType ct = true
        · rcases hf with (hs | hcf) | hj
          · omega
          · rw [hct] at hcf; cases hcf
          · cases j with
            | notJson => simp [gdeltTopicFetch, gdeltTopicFetchE, hok, hct]
            | fields arts =>
              cases arts with
              | none => simp [gdeltTopicFetch, gdeltTopicFetchE, hok, hct]
              | some l => simp at hj
        · have hct2 : hasJsonContentType ct = false := by
            cases hcv : hasJsonContentType ct
            · rfl
            · exact absurd hcv hct
          cases j <;> simp [gdeltTopicFetch, gdeltTopicFetchE, hok, hct2]
      · cases j <;> simp [gdeltTopicFetch, gdeltTopicFetchE, hok]

/-- Witness for claim C6 at one concrete failure of each kind. -/
theorem adapters_recover_failures_witness :
    googleTopicFetch "ai" "1h" 0 6 [] HttpOutcome.netError = ([], []) ∧
      fetchNewsAPIModel (some "k") ["ai"] 0 5 HttpOutcome.timeout = [] ∧
      gdeltTopicFetch "ai" 0 5 [exNew]
        (HttpOutcome.response 200 "text/html" GdeltJson.notJson) = [exNew] := by
  have h := adapters_recover_failures "ai" "1h" 0 6 [] (some "k") ["ai"] 5 [exNew]
    HttpOutcome.netError HttpOutcome.timeout
    (HttpOutcome.response 200 "text/html" GdeltJson.notJson)
  exact ⟨h.1 rfl, h.2.2.1 rfl, h.2.2.2 (by decide)⟩

/-- Claim C8: the link validator accepts on any thrown failure of either
probe — including the ambiguous-status retry path — and the validation
pass only logs its outcome, returning the final result list unchanged for
every input. -/
theorem validation_optimistic_and_advisory (g : ProbeResult) (s : Nat)
    (probe : String → Bool) (finalResults : List Article) :
    validateLink ProbeResult.throws g = true ∧
      ((s = 405 ∨ s = 403) → validateLink (ProbeResult.status s) ProbeResult.throws = true) ∧
      validateTopLinks probe finalResults = finalResults := by
  refine ⟨rfl, ?_, rfl⟩
  rintro (rfl | rfl) <;> decide

/-- Witness for claim C8 at concrete probe outcomes. -/
theorem validation_optimistic_and_advisory_witness :
    validateLink ProbeResult.throws (ProbeResult.status 0) = true ∧
      validateLink (ProbeResult.status 405) ProbeResult.throws = true ∧
      validateTopLinks (fun _ => false) [exNew] = [exNew] := by
  have h := validation_optimistic_and_advisory (ProbeResult.status 0) 405 (fun _ => false) [exNew]
  exact ⟨h.1, h.2.1 (Or.inl rfl), h.2.2⟩

/-- A membership characterization of the dedup loop's final seen set: a
key is there exactly when it was there initially or is one of the two
keys of an accepted article. -/
theorem seenAfter_mem_iff : ∀ (l : List Article) (seen : List String) (k : String),
    k ∈ seenAfter seen l ↔
      k ∈ seen ∨ ∃ a, a ∈ dedupGo seen l ∧ (k = linkKey a ∨ k = titleKey a) := by
  intro l
  induction l with
  | nil => intro seen k; simp [seenAfter, dedupGo]
  | cons a rest ih =>
    intro seen k
    by_cases hc : linkKey a ∈ seen ∨ titleKey a ∈ seen
    · simp only [seenAfter, dedupGo, if_pos hc]
      exact ih seen k
    · simp only [seenAfter, dedupGo, if_neg hc]
      rw [ih]
      simp only [List.mem_cons]
      constructor
      · rintro ((rfl | rfl | hs) | ⟨b, hb, hk⟩)
        · exact Or.inr ⟨a, Or.inl rfl, Or.inl rfl⟩
        · exact Or.inr ⟨a, Or.inl rfl, Or.inr rfl⟩
        · exact Or.inl hs
        · exact Or.inr ⟨b, Or.inr hb, hk⟩
      · rintro (hs | ⟨b, rfl | hb, hk⟩)
        · exact Or.inl (Or.inr (Or.inr hs))
        · rcases hk with rfl | rfl
          · exact Or.inl (Or.inl rfl)
          · exact Or.inl (Or.inr (Or.inl rfl))
        · exact Or.inr ⟨b, hb, hk⟩

/-- Claim C9: the dedup uses one shared seen set for both key kinds — a
newly arriving article is appended exactly when both of its keys differ
from both keys of every already accepted article, so a cross-kind
collision (lowercased link against an earlier normalized title, or the
reverse) rejects it as well; the concrete pair of sample articles shows
the cross-kind rejection firing with no same-kind collision at all. -/
theorem dedup_shared_seen_set :
    (∀ (L : List Article) (a : Article),
        dedupMerge (L ++ [a]) = dedupMerge L ++ [a] ∨ dedupMerge (L ++ [a]) = dedupMerge L) ∧
      (∀ (L : List Article) (a : Article),
        dedupMerge (L ++ [a]) = dedupMerge L ++ [a] ↔
          ∀ p ∈ dedupMerge L, linkKey a ≠ linkKey p ∧ linkKey a ≠ titleKey p ∧
            titleKey a ≠ linkKey p ∧ titleKey a ≠ titleKey p) ∧
      (dedupMerge [exArtA, exArtB] = [exArtA] ∧ linkKey exArtB = titleKey exArtA ∧
        linkKey exArtB ≠ linkKey exArtA ∧ titleKey exArtB ≠ titleKey exArtA) := by
  have hstep : ∀ (L : List Article) (a : Article),
      dedupMerge (L ++ [a]) =
        dedupMerge L ++
          (if linkKey a ∈ seenAfter [] L ∨ titleKey a ∈ seenAfter [] L then [] else [a]) := by
    intro L a
    unfold dedupMerge
    rw [dedupGo_append]
    by_cases hc : linkKey a ∈ seenAfter [] L ∨ titleKey a ∈ seenAfter [] L
    · simp [dedupGo, hc]
    · simp [dedupGo, hc]
  refine ⟨?_, ?_, by decide, by decide, by decide, by decide⟩
  · intro L a
    rw [hstep]
    by_cases hc : linkKey a ∈ seenAfter [] L ∨ titleKey a ∈ seenAfter [] L
    · right; simp [hc]
    · left; simp [hc]
  · intro L a
    rw [hstep]
    by_cases hc : linkKey a ∈ seenAfter [] L ∨ titleKey a ∈ seenAfter [] L
    · rw [if_pos hc]
      constructor
      · intro hEq
        have := congrArg List.length hEq
        simp at this
      · intro hall
        exfalso
        rcases hc with hkey | hkey <;>
          rcases (seenAfter_mem_iff L [] _).mp hkey with h0 | ⟨p, hp, hk⟩
        · simp at h0
        · rcases hk with hk | hk
          · exact (hall p hp).1 hk
          · exact (hall p hp).2.1 hk
        · simp at h0
        · rcases hk with hk | hk
          · exact (hall p hp).2.2.1 hk
          · exact (hall p hp).2.2.2 hk
    · rw [if_neg hc]
      push_neg at hc
      constructor
      · intro _ p hp
        refine ⟨?_, ?_, ?_, ?_⟩ <;> intro hk <;> rw [hk] at hc
        · exact hc.1 ((seenAfter_mem_iff L [] _).mpr (Or.inr ⟨p, hp, Or.inl rfl⟩))
        · exact hc.1 ((seenAfter_mem_iff L [] _).mpr (Or.inr ⟨p, hp, Or.inr rfl⟩))
        · exact hc.2 ((seenAfter_mem_iff L [] _).mpr (Or.inr ⟨p, hp, Or.inl rfl⟩))
        · exact hc.2 ((seenAfter_mem_iff L [] _).mpr (Or.inr ⟨p, hp, Or.inr rfl⟩))
      · intro _; rfl

/-- Witness for claim C9: a fresh article with disjoint keys is appended
by the merge step. -/
theorem dedup_shared_seen_set_witness :
    dedupMerge ([exNew] ++ [exOld]) = dedupMerge [exNew] ++ [exOld] :=
  (dedup_shared_seen_set.2.1 [exNew] exOld).mpr (by decide)

end GrowWithAI
